import Mathlib

/-
Verification of the signal-processing core of
src/AccelerometerApp/app/(tabs)/accelerometer.tsx against its specification.

JavaScript numbers are modelled by the type JS alpha: either NaN, one of the
two infinities, or a finite value drawn from a linear ordered field (the
idealisation replaces IEEE doubles by exact field arithmetic; rounding and
overflow are not modelled, while the NaN/Infinity special cases that the
claims are about are modelled exactly).  The external collaborators of the
core are passed in as parameters: the Math.cos and Math.sqrt functions of the
JS runtime (cosF, sqrtF, with Math.PI as piA) and the fft function of the
fft-js library (fft, returning none when the library call throws).
-/

inductive JS (α : Type) where
  | nan : JS α
  | posInf : JS α
  | negInf : JS α
  | fin (x : α) : JS α
  deriving DecidableEq

variable {α : Type} [LinearOrderedField α]

/-- Addition of JavaScript numbers: NaN absorbs, opposite infinities give NaN,
an infinity absorbs finite values, finite addition is exact. -/
def jsAdd : JS α → JS α → JS α
  | JS.nan, _ => JS.nan
  | _, JS.nan => JS.nan
  | JS.posInf, JS.negInf => JS.nan
  | JS.negInf, JS.posInf => JS.nan
  | JS.posInf, _ => JS.posInf
  | _, JS.posInf => JS.posInf
  | JS.negInf, _ => JS.negInf
  | _, JS.negInf => JS.negInf
  | JS.fin a, JS.fin b => JS.fin (a + b)

/-- Subtraction of JavaScript numbers. -/
def jsSub : JS α → JS α → JS α
  | JS.nan, _ => JS.nan
  | _, JS.nan => JS.nan
  | JS.posInf, JS.posInf => JS.nan
  | JS.negInf, JS.negInf => JS.nan
  | JS.posInf, _ => JS.posInf
  | JS.negInf, _ => JS.negInf
  | _, JS.posInf => JS.negInf
  | _, JS.negInf => JS.posInf
  | JS.fin a, JS.fin b => JS.fin (a - b)

/-- Multiplication of JavaScript numbers: an infinity times zero is NaN,
otherwise signs combine as usual. -/
def jsMul : JS α → JS α → JS α
  | JS.nan, _ => JS.nan
  | _, JS.nan => JS.nan
  | JS.posInf, JS.posInf => JS.posInf
  | JS.posInf, JS.negInf => JS.negInf
  | JS.negInf, JS.posInf => JS.negInf
  | JS.negInf, JS.negInf => JS.posInf
  | JS.posInf, JS.fin b => if b = 0 then JS.nan else if 0 < b then JS.posInf else JS.negInf
  | JS.fin a, JS.posInf => if a = 0 then JS.nan else if 0 < a then JS.posInf else JS.negInf
  | JS.negInf, JS.fin b => if b = 0 then JS.nan else if 0 < b then JS.negInf else JS.posInf
  | JS.fin a, JS.negInf => if a = 0 then JS.nan else if 0 < a then JS.negInf else JS.posInf
  | JS.fin a, JS.fin b => JS.fin (a * b)

/-- Division of JavaScript numbers: a nonzero finite value divided by zero is a
signed infinity, zero divided by zero is NaN, a finite value divided by an
infinity is zero (negative zero is identified with zero in this model). -/
def jsDiv : JS α → JS α → JS α
  | JS.nan, _ => JS.nan
  | _, JS.nan => JS.nan
  | JS.posInf, JS.posInf => JS.nan
  | JS.posInf, JS.negInf => JS.nan
  | JS.negInf, JS.posInf => JS.nan
  | JS.negInf, JS.negInf => JS.nan
  | JS.posInf, JS.fin b => if 0 ≤ b then JS.posInf else JS.negInf
  | JS.negInf, JS.fin b => if 0 ≤ b then JS.negInf else JS.posInf
  | JS.fin _, JS.posInf => JS.fin 0
  | JS.fin _, JS.negInf => JS.fin 0
  | JS.fin a, JS.fin b =>
      if b = 0 then (if a = 0 then JS.nan else if 0 < a then JS.posInf else JS.negInf)
      else JS.fin (a / b)

/-- Math.cos of a JavaScript number: NaN on NaN and on the infinities, the
supplied cosine function on finite values. -/
def jsCos (cosF : α → α) : JS α → JS α
  | JS.fin x => JS.fin (cosF x)
  | _ => JS.nan

/-- Math.sqrt of a JavaScript number: NaN on NaN, negative infinity and
negative finite values, positive infinity on positive infinity, and the
supplied square root function on nonnegative finite values. -/
def jsSqrt (sqrtF : α → α) : JS α → JS α
  | JS.nan => JS.nan
  | JS.posInf => JS.posInf
  | JS.negInf => JS.nan
  | JS.fin x => if x < 0 then JS.nan else JS.fin (sqrtF x)

/-- The isNaN test of JavaScript on a number. -/
def isNaNb : JS α → Bool
  | JS.nan => true
  | _ => false

/-- The isFinite test of JavaScript on a number. -/
def isFiniteb : JS α → Bool
  | JS.fin _ => true
  | _ => false

/-- JavaScript comparison v > 0: false on NaN, true on positive infinity. -/
def jsGtZero : JS α → Bool
  | JS.nan => false
  | JS.posInf => true
  | JS.negInf => false
  | JS.fin x => decide (0 < x)

/-
The FFT stage of accelerometer.tsx (lines 336-413).
-/

/-- applyHannWindow from accelerometer.tsx lines 408-413: every element is
multiplied by the factor 0.5 * (1 - cos((2 * PI * index) / (data.length - 1))),
computed in JavaScript arithmetic.  There is no special case for short inputs:
for a one element list the factor is cos(0 / 0) related NaN. -/
def applyHannWindow (cosF : α → α) (piA : α) (data : List (JS α)) : List (JS α) :=
  data.enum.map (fun p =>
    jsMul p.2
      (jsMul (JS.fin (1 / 2))
        (jsSub (JS.fin 1)
          (jsCos cosF
            (jsDiv (jsMul (jsMul (JS.fin 2) (JS.fin piA)) (JS.fin (p.1 : α)))
              (jsSub (JS.fin (data.length : α)) (JS.fin 1)))))))

/-- Math.pow(2, Math.ceil(Math.log2(L))) from accelerometer.tsx line 342.  In
JavaScript Math.log2 0 is negative infinity and the whole expression is 0, so
the length 0 case is special. -/
def nextPow2 (L : ℕ) : ℕ := if L = 0 then 0 else 2 ^ Nat.clog 2 L

/-- The zero padding loop of accelerometer.tsx lines 343-348: copy the input
and push zeros until the length reaches nextPow2. -/
def padToPow2 (timeData : List (JS α)) : List (JS α) :=
  timeData ++ List.replicate (nextPow2 timeData.length - timeData.length) (JS.fin 0)

/-- Input formats the code offers to the fft-js library (lines 358-370): an
array of [real, imaginary] pairs, or a flat array of alternating real and
imaginary parts. -/
inductive FFTArg (α : Type) where
  | pairs (l : List (JS α × JS α))
  | alternating (l : List (JS α))

/-- Result formats the code distinguishes with Array.isArray(fftResult[0])
(line 378): an array of [real, imaginary] pairs, or a flat alternating
array. -/
inductive FFTRaw (α : Type) where
  | pairs (l : List (JS α × JS α))
  | flat (l : List (JS α))

/-- One magnitude entry, lines 381-384 and 389-392: sqrt(re*re + im*im)
divided by the windowed length P. -/
def magnitudeOfPair (sqrtF : α → α) (P : ℕ) (c : JS α × JS α) : JS α :=
  jsDiv (jsSqrt sqrtF (jsAdd (jsMul c.1 c.1) (jsMul c.2 c.2))) (JS.fin (P : α))

/-- The magnitude loops of accelerometer.tsx lines 376-394 together with the
catch fallback of lines 398-401.  The loop bound i < fftResult.length / 2 is a
floating point comparison with an integer counter, so the number of iterations
is the ceiling of length / 2 (length odd is possible only for a misbehaving
library); the alternating branch runs ceiling of length / 4 iterations; the
fallback is Math.ceil(timeData.length / 2) zeros where timeData is the raw,
unpadded input.  Out of range reads (impossible for the iteration counts used)
default to NaN, the JS undefined. -/
def magnitudeStage (sqrtF : α → α) (raw : Option (FFTRaw α)) (windowedLen rawLen : ℕ) :
    List (JS α) :=
  match raw with
  | some (FFTRaw.pairs l) =>
      (List.range ((l.length + 1) / 2)).map
        (fun i => magnitudeOfPair sqrtF windowedLen (l.getD i (JS.nan, JS.nan)))
  | some (FFTRaw.flat l) =>
      (List.range ((l.length + 3) / 4)).map
        (fun i => magnitudeOfPair sqrtF windowedLen
          (l.getD (2 * i) JS.nan, l.getD (2 * i + 1) JS.nan))
  | none => List.replicate ((rawLen + 1) / 2) (JS.fin 0)

/-- The format probing of lines 357-370: first call the library with
[real, imaginary] pairs; if that throws (modelled by none), retry with the
flat alternating encoding. -/
def fftProbe (fft : FFTArg α → Option (FFTRaw α)) (windowedData : List (JS α)) :
    Option (FFTRaw α) :=
  match fft (FFTArg.pairs (windowedData.map (fun val => (val, JS.fin 0)))) with
  | some r => some r
  | none => fft (FFTArg.alternating (windowedData.flatMap (fun val => [val, JS.fin 0])))

/-- performFFT from accelerometer.tsx lines 336-402: pad the input with zeros
to the next power of two, apply the Hann window to the padded sequence, hand
the windowed sequence to the library, and convert the coefficients to
magnitudes; if everything fails, fall back to ceil(L / 2) zeros. -/
def performFFT (cosF sqrtF : α → α) (piA : α) (fft : FFTArg α → Option (FFTRaw α))
    (timeData : List (JS α)) : List (JS α) :=
  let paddedData := padToPow2 timeData
  let windowedData := applyHannWindow cosF piA paddedData
  magnitudeStage sqrtF (fftProbe fft windowedData) windowedData.length timeData.length

/-
The recording summary and per axis dispatch of processData (lines 263-327).
-/

/-- One accelerometer sample: three axis values and the optional timestamp the
listener attaches. -/
structure Sample (α : Type) where
  x : JS α
  y : JS α
  z : JS α
  timestamp : Option (JS α)
  deriving DecidableEq

/-- The idiom value.timestamp || 0 of lines 276-277: undefined becomes 0, and
so do the other falsy numbers (0 itself and NaN). -/
def tsOr0 : Option (JS α) → JS α
  | none => JS.fin 0
  | some JS.nan => JS.fin 0
  | some v => v

/-- durationSeconds from line 278: (last timestamp - first timestamp) / 1000
in JavaScript arithmetic. -/
def durationSecondsOf (data : List (Sample α)) : JS α :=
  jsDiv
    (jsSub (tsOr0 (data.getLast?.bind Sample.timestamp))
      (tsOr0 (data.head?.bind Sample.timestamp)))
    (JS.fin 1000)

/-- samplingRate from line 279: data.length / durationSeconds in JavaScript
arithmetic; a zero duration gives positive infinity, there is no guard. -/
def samplingRateOf (data : List (Sample α)) : JS α :=
  jsDiv (JS.fin (data.length : α)) (durationSecondsOf data)

/-- The frequency bin construction of lines 296-298:
Array.from({length: fftX.length}, (_, i) => (i * samplingRate) / (fftX.length * 2)). -/
def frequencyBins (fftLen : ℕ) (samplingRate : JS α) : List (JS α) :=
  (List.range fftLen).map (fun i : ℕ =>
    jsDiv (jsMul (JS.fin (i : α)) samplingRate) (jsMul (JS.fin (fftLen : α)) (JS.fin 2)))

/-- Frequencies and magnitudes for one axis, as stored into fftResults. -/
structure AxisResult (α : Type) where
  frequencies : List (JS α)
  magnitudes : List (JS α)
  deriving DecidableEq

/-- The value passed to setFftResults on lines 312-316. -/
structure FFTResults (α : Type) where
  x : AxisResult α
  y : AxisResult α
  z : AxisResult α
  deriving DecidableEq

/-- processData from accelerometer.tsx lines 263-327, with the state setting
calls modelled by the returned option: none when fewer than 4 samples make the
function return early with no result, otherwise the record handed to
setFftResults.  The same frequency bin list, computed from the X axis FFT
length, is attached to all three axes, as in the source.  The console logging
and the Math.max debug computations of lines 300-310 have no effect on the
result and are omitted. -/
def processData (cosF sqrtF : α → α) (piA : α) (fft : FFTArg α → Option (FFTRaw α))
    (data : List (Sample α)) : Option (FFTResults α) :=
  if data.length < 4 then none
  else
    let samplingRate := samplingRateOf data
    let fftX := performFFT cosF sqrtF piA fft (data.map Sample.x)
    let fftY := performFFT cosF sqrtF piA fft (data.map Sample.y)
    let fftZ := performFFT cosF sqrtF piA fft (data.map Sample.z)
    let bins := frequencyBins fftX.length samplingRate
    some ⟨⟨bins, fftX⟩, ⟨bins, fftY⟩, ⟨bins, fftZ⟩⟩

/-
The dominant frequency extractor getDominantFrequencies (lines 729-749).
-/

/-- One entry of the extractor: the objects built on lines 732-736 carry the
source index i + 1, the fill objects of line 741 carry no index field, which
is modelled by none. -/
structure DominantEntry (α : Type) where
  index : Option ℕ
  magnitude : JS α
  frequency : JS α
  deriving DecidableEq

/-- The sanitising conditional of lines 734-735:
isNaN(v) || !isFinite(v) ? 0 : v. -/
def sanitizeNum (v : JS α) : JS α :=
  if isNaNb v || !isFiniteb v then JS.fin 0 else v

/-- The candidate list indexedMagnitudes of lines 731-737: drop the DC entry,
attach source indices, sanitise magnitude and frequency, and keep only the
entries with positive magnitude.  An out of range frequency read yields the JS
undefined, whose isNaN test is true; it is modelled by a NaN default, which
sanitises identically to 0. -/
def indexedMagnitudes (frequencies magnitudes : List (JS α)) : List (DominantEntry α) :=
  ((magnitudes.drop 1).enum.map (fun p =>
      { index := some (p.1 + 1)
        magnitude := sanitizeNum p.2
        frequency := sanitizeNum (frequencies.getD (p.1 + 1) JS.nan) })).filter
    (fun item => jsGtZero item.magnitude)

/-- The comparator (a, b) => b.magnitude - a.magnitude of line 745, as the
predicate that element a may stay before element b: true when the comparator
value is nonpositive.  A NaN comparator value is treated as zero by the sort
of JavaScript, hence true here; after the positive magnitude filter all
magnitudes are finite and the NaN case is unreachable. -/
def sortBefore (a b : DominantEntry α) : Bool :=
  match jsSub b.magnitude a.magnitude with
  | JS.fin c => decide (c ≤ 0)
  | JS.negInf => true
  | JS.posInf => false
  | JS.nan => true

/-- Stable insertion of one entry: the entry being inserted stands before all
later elements of the original list, so it passes an element only when the
comparator orders it strictly earlier. -/
def insertByMagnitude (x : DominantEntry α) : List (DominantEntry α) → List (DominantEntry α)
  | [] => [x]
  | y :: ys => if sortBefore x y then x :: y :: ys else y :: insertByMagnitude x ys

/-- The Array.prototype.sort call of line 745.  ECMAScript sort is stable and,
for a consistent comparator, its output is uniquely determined, so stable
insertion sort is a faithful model. -/
def sortByMagnitudeDesc : List (DominantEntry α) → List (DominantEntry α)
  | [] => []
  | x :: xs => insertByMagnitude x (sortByMagnitudeDesc xs)

/-- getDominantFrequencies from accelerometer.tsx lines 729-749.  When no
entry survives the filter the code returns count copies of the object
{frequency: 0, magnitude: 0} (despite the comment above that line promising an
empty array); otherwise it sorts by magnitude descending and takes the first
count entries. -/
def getDominantFrequencies (frequencies magnitudes : List (JS α)) (count : ℕ) :
    List (DominantEntry α) :=
  let candidates := indexedMagnitudes frequencies magnitudes
  if candidates = [] then
    List.replicate count { index := none, magnitude := JS.fin 0, frequency := JS.fin 0 }
  else
    (sortByMagnitudeDesc candidates).take count

/-- The finite value of a magnitude in an extractor entry; every magnitude in
the candidate list is finite because sanitizeNum only produces finite values,
and the key of a fill entry is 0. -/
def magnitudeKey : JS α → α
  | JS.fin x => x
  | JS.nan => 0
  | JS.posInf => 0
  | JS.negInf => 0

/-- The ordering the extractor output is claimed to satisfy: magnitudes are
descending, and on equal magnitudes the source indices (when both are real
entries) are in their original ascending order. -/
def sortedRel (a b : DominantEntry α) : Prop :=
  magnitudeKey b.magnitude ≤ magnitudeKey a.magnitude ∧
    (magnitudeKey a.magnitude = magnitudeKey b.magnitude →
      ∀ i j, a.index = some i → b.index = some j → i < j)

/-- Original order of two real entries: both carry source indices and the
first index is smaller. -/
def origBefore (a b : DominantEntry α) : Prop :=
  ∃ i j, a.index = some i ∧ b.index = some j ∧ i < j

/-
Basic facts about the embedded pipeline stages.
-/

theorem applyHannWindow_length (cosF : α → α) (piA : α) (data : List (JS α)) :
    (applyHannWindow cosF piA data).length = data.length := by
  simp [applyHannWindow]

theorem nextPow2_of_pos {L : ℕ} (h : 1 ≤ L) : nextPow2 L = 2 ^ Nat.clog 2 L := by
  have hL : L ≠ 0 := by omega
  simp [nextPow2, hL]

theorem le_nextPow2 {L : ℕ} (h : 1 ≤ L) : L ≤ nextPow2 L := by
  rw [nextPow2_of_pos h]
  exact Nat.le_pow_clog (by norm_num) L

theorem nextPow2_pow (k : ℕ) : nextPow2 (2 ^ k) = 2 ^ k := by
  have h1 : (2:ℕ) ^ k ≠ 0 := by positivity
  simp [nextPow2, h1, Nat.clog_pow 2 k (by norm_num)]

theorem padToPow2_length (timeData : List (JS α)) :
    (padToPow2 timeData).length = nextPow2 timeData.length := by
  have h : timeData.length ≤ nextPow2 timeData.length := by
    rcases Nat.eq_zero_or_pos timeData.length with h0 | h0
    · simp [h0, nextPow2]
    · exact le_nextPow2 h0
  simp only [padToPow2, List.length_append, List.length_replicate]
  omega

theorem padToPow2_take (timeData : List (JS α)) :
    (padToPow2 timeData).take timeData.length = timeData := by
  simp [padToPow2]

theorem padToPow2_drop (timeData : List (JS α)) :
    (padToPow2 timeData).drop timeData.length =
      List.replicate (nextPow2 timeData.length - timeData.length) (JS.fin 0) := by
  simp [padToPow2]

theorem getD_map_range {β : Type} (n i : ℕ) (f : ℕ → β) (d : β) (h : i < n) :
    ((List.range n).map f).getD i d = f i := by
  simp [List.getD, List.getElem?_map, List.getElem?_range, h]

theorem nextPow2_even {L : ℕ} (h : 2 ≤ L) : ∃ m, nextPow2 L = 2 * m := by
  rw [nextPow2_of_pos (by omega)]
  have hk : 0 < Nat.clog 2 L := Nat.clog_pos (by norm_num) h
  exact ⟨2 ^ (Nat.clog 2 L - 1), by
    rw [← pow_succ']
    congr 1
    omega⟩

theorem applyHannWindow_getD (cosF : α → α) (piA : α) (data : List (JS α)) (i : ℕ)
    (h : i < data.length) :
    (applyHannWindow cosF piA data).getD i JS.nan =
      jsMul (data.getD i JS.nan)
        (jsMul (JS.fin (1 / 2))
          (jsSub (JS.fin 1)
            (jsCos cosF
              (jsDiv (jsMul (jsMul (JS.fin 2) (JS.fin piA)) (JS.fin (i : α)))
                (jsSub (JS.fin (data.length : α)) (JS.fin 1)))))) := by
  simp [applyHannWindow, List.getD, List.getElem?_map, List.getElem?_enum,
    List.getElem?_eq_getElem h]

/-
The stable sort model: permutation and ordering facts.
-/

theorem insertByMagnitude_perm (x : DominantEntry α) (l : List (DominantEntry α)) :
    List.Perm (insertByMagnitude x l) (x :: l) := by
  induction l with
  | nil => simp [insertByMagnitude]
  | cons y ys ih =>
      by_cases h : sortBefore x y
      · simp [insertByMagnitude, h]
      · simp only [insertByMagnitude, h, if_neg, Bool.false_eq_true, not_false_iff]
        exact ((ih.cons y).trans (List.Perm.swap x y ys))

theorem sortByMagnitudeDesc_perm (l : List (DominantEntry α)) :
    List.Perm (sortByMagnitudeDesc l) l := by
  induction l with
  | nil => simp [sortByMagnitudeDesc]
  | cons x xs ih =>
      exact (insertByMagnitude_perm x (sortByMagnitudeDesc xs)).trans (ih.cons x)

theorem sortBefore_of_fin {a b : DominantEntry α} {p q : α}
    (ha : a.magnitude = JS.fin p) (hb : b.magnitude = JS.fin q) :
    sortBefore a b = decide (q ≤ p) := by
  simp [sortBefore, ha, hb, jsSub, sub_nonpos]

theorem insertByMagnitude_pairwise {x : DominantEntry α} {l : List (DominantEntry α)}
    (hfx : ∃ p, x.magnitude = JS.fin p)
    (hfl : ∀ y ∈ l, ∃ q, y.magnitude = JS.fin q)
    (hb : ∀ y ∈ l, origBefore x y)
    (hp : List.Pairwise sortedRel l) :
    List.Pairwise sortedRel (insertByMagnitude x l) := by
  induction l with
  | nil => simp [insertByMagnitude, List.pairwise_singleton]
  | cons y ys ih =>
      obtain ⟨p, hxp⟩ := hfx
      obtain ⟨q, hyq⟩ := hfl y (by simp)
      rw [List.pairwise_cons] at hp
      by_cases h : sortBefore x y
      · rw [insertByMagnitude, if_pos h]
        have hqp : q ≤ p := by
          rw [sortBefore_of_fin hxp hyq] at h
          exact of_decide_eq_true h
        constructor
        · intro z hz
          rcases List.mem_cons.mp hz with rfl | hz
          · refine ⟨by simp [magnitudeKey, hxp, hyq, hqp], ?_⟩
            intro _ i j hi hj
            obtain ⟨i1, j1, hi1, hj1, hij⟩ := hb z (by simp)
            simp [hi1] at hi
            simp [hj1] at hj
            omega
          · obtain ⟨hle, _⟩ := hp.1 z hz
            refine ⟨?_, ?_⟩
            · calc magnitudeKey z.magnitude ≤ magnitudeKey y.magnitude := hle
                _ ≤ magnitudeKey x.magnitude := by simp [magnitudeKey, hxp, hyq, hqp]
            · intro _ i j hi hj
              obtain ⟨i1, j1, hi1, hj1, hij⟩ := hb z (List.mem_cons_of_mem y hz)
              simp [hi1] at hi
              simp [hj1] at hj
              omega
        · exact List.pairwise_cons.mpr hp
      · rw [insertByMagnitude, if_neg h]
        have hpq : p < q := by
          rw [sortBefore_of_fin hxp hyq] at h
          exact not_le.mp (of_decide_eq_false (Bool.of_not_eq_true h))
        constructor
        · intro z hz
          have hz2 : z = x ∨ z ∈ ys :=
            List.mem_cons.mp ((insertByMagnitude_perm x ys).mem_iff.mp hz)
          rcases hz2 with rfl | hz2
          · refine ⟨by simp [magnitudeKey, hxp, hyq, le_of_lt hpq], ?_⟩
            intro habs i j hi hj
            simp only [hxp, hyq, magnitudeKey] at habs
            exact absurd habs (ne_of_gt hpq)
          · exact hp.1 z hz2
        · exact ih (fun z hz => hfl z (List.mem_cons_of_mem y hz))
            (fun z hz => hb z (List.mem_cons_of_mem y hz)) hp.2

theorem sortByMagnitudeDesc_pairwise {l : List (DominantEntry α)}
    (hf : ∀ e ∈ l, ∃ q, e.magnitude = JS.fin q)
    (hp : List.Pairwise origBefore l) :
    List.Pairwise sortedRel (sortByMagnitudeDesc l) := by
  induction l with
  | nil => simp [sortByMagnitudeDesc]
  | cons x xs ih =>
      rw [List.pairwise_cons] at hp
      rw [sortByMagnitudeDesc]
      refine insertByMagnitude_pairwise (hf x (by simp)) ?_ ?_ ?_
      · intro y hy
        exact hf y (List.mem_cons_of_mem x ((sortByMagnitudeDesc_perm xs).mem_iff.mp hy))
      · intro y hy
        exact hp.1 y ((sortByMagnitudeDesc_perm xs).mem_iff.mp hy)
      · exact ih (fun e he => hf e (List.mem_cons_of_mem x he)) hp.2

theorem sanitizeNum_fin (v : JS α) : ∃ q, sanitizeNum v = JS.fin q := by
  cases v <;> simp [sanitizeNum, isNaNb, isFiniteb]

theorem mem_indexedMagnitudes {frequencies magnitudes : List (JS α)} {e : DominantEntry α}
    (he : e ∈ indexedMagnitudes frequencies magnitudes) :
    (∃ k, e.index = some (k + 1)) ∧ (∃ q, e.magnitude = JS.fin q) := by
  have hm := List.mem_of_mem_filter he
  obtain ⟨p, _, rfl⟩ := List.mem_map.mp hm
  exact ⟨⟨p.1, rfl⟩, sanitizeNum_fin p.2⟩

theorem indexedMagnitudes_pairwise (frequencies magnitudes : List (JS α)) :
    List.Pairwise origBefore (indexedMagnitudes frequencies magnitudes) := by
  apply List.Pairwise.filter
  have henum : List.Pairwise (fun p q : ℕ × JS α => p.1 < q.1) (magnitudes.drop 1).enum := by
    rw [List.pairwise_iff_getElem]
    intro i j hi hj hij
    simp only [List.getElem_enum]
    simpa using hij
  exact henum.map _ (fun a b hab => ⟨a.1 + 1, b.1 + 1, rfl, rfl, by omega⟩)

theorem pairwise_sortedRel_replicate (n : ℕ) :
    List.Pairwise sortedRel
      (List.replicate n
        ({ index := none, magnitude := JS.fin 0, frequency := JS.fin 0 } : DominantEntry α)) := by
  induction n with
  | zero => simp
  | succ k ih =>
      rw [List.replicate_succ, List.pairwise_cons]
      refine ⟨?_, ih⟩
      intro b hb
      rw [List.eq_of_mem_replicate hb]
      exact ⟨le_refl _, fun _ i j hi hj => by simp at hi⟩

theorem mem_getDominantFrequencies {frequencies magnitudes : List (JS α)} {count : ℕ}
    {e : DominantEntry α} (he : e ∈ getDominantFrequencies frequencies magnitudes count) :
    e = { index := none, magnitude := JS.fin 0, frequency := JS.fin 0 } ∨
      e ∈ indexedMagnitudes frequencies magnitudes := by
  unfold getDominantFrequencies at he
  by_cases h : indexedMagnitudes frequencies magnitudes = []
  · rw [if_pos h] at he
    exact Or.inl (List.eq_of_mem_replicate he)
  · rw [if_neg h] at he
    exact Or.inr ((sortByMagnitudeDesc_perm _).mem_iff.mp (List.mem_of_mem_take he))

/-- C6: the output of the dominant frequency extractor never contains the DC
entry (the fill entries of the empty case carry no source index at all, and
every real entry carries a source index of at least 1), it is sorted by
magnitude in descending order, and entries of equal magnitude keep their
original ascending index order, which for a monotone frequency axis is the
ascending frequency order (the sort is stable). -/
theorem dominant_frequencies_sorted_no_dc (frequencies magnitudes : List (JS α)) (count : ℕ) :
    (∀ e ∈ getDominantFrequencies frequencies magnitudes count, e.index ≠ some 0) ∧
    List.Pairwise sortedRel (getDominantFrequencies frequencies magnitudes count) := by
  constructor
  · intro e he
    rcases mem_getDominantFrequencies he with rfl | he2
    · simp
    · obtain ⟨⟨k, hk⟩, _⟩ := mem_indexedMagnitudes he2
      simp [hk]
  · unfold getDominantFrequencies
    by_cases h : indexedMagnitudes frequencies magnitudes = []
    · rw [if_pos h]
      exact pairwise_sortedRel_replicate count
    · rw [if_neg h]
      exact List.Pairwise.sublist (List.take_sublist _ _)
        (sortByMagnitudeDesc_pairwise (fun e he => (mem_indexedMagnitudes he).2)
          (indexedMagnitudes_pairwise _ _))

/-- C3: with an all zero magnitude spectrum (so no entry survives the filter)
the extractor does not return the empty list its own comment promises: it
returns count = 3 synthetic entries with frequency 0 and magnitude 0.  The
claim (and the comment on line 739 of the source) says the result should be
exactly the surviving valid entries, here none. -/
theorem dominant_empty_fill_bug :
    getDominantFrequencies ([JS.fin 0, JS.fin 1, JS.fin 2, JS.fin 3] : List (JS ℚ))
        [JS.fin 0, JS.fin 0, JS.fin 0, JS.fin 0] 3 =
      List.replicate 3 { index := none, magnitude := JS.fin 0, frequency := JS.fin 0 } ∧
    List.replicate 3
        ({ index := none, magnitude := JS.fin 0, frequency := JS.fin 0 } : DominantEntry ℚ) ≠
      [] := by
  constructor
  · decide
  · decide

unseal Rat.sub in
/-- C10 (counterexample): an entry with positive finite magnitude and NaN
frequency is dropped from the output as soon as K entries of larger magnitude
exist: with magnitudes 5, 5, 5, 1 at indices 1..4 and a NaN frequency at
index 4, the index 4 entry is valid (magnitude 1, sanitised frequency 0) yet
absent from the top 3 output, refuting the claim that such an entry is
retained in the output. -/
theorem nonfinite_frequency_dropped_when_ranked_out :
    (∀ e ∈ getDominantFrequencies
        ([JS.fin 0, JS.fin 1, JS.fin 2, JS.fin 3, JS.nan] : List (JS ℚ))
        [JS.fin 0, JS.fin 5, JS.fin 5, JS.fin 5, JS.fin 1] 3, e.index ≠ some 4) ∧
      ([JS.fin (0:ℚ), JS.fin 5, JS.fin 5, JS.fin 5, JS.fin 1] : List (JS ℚ))[4]? =
        some (JS.fin 1) ∧
      isFiniteb (([JS.fin 0, JS.fin 1, JS.fin 2, JS.fin 3, JS.nan] : List (JS ℚ)).getD 4
        JS.nan) = false := by
  refine ⟨by decide, by decide, by decide⟩

/-- C10 (amended): an entry at index i of at least 1 whose magnitude is
positive and finite but whose paired frequency is NaN or not finite is not
discarded by the validity filter: it enters the candidate list with its
frequency replaced by 0, and it appears in the output whenever it ranks within
the top count entries, in particular always when at most count valid entries
exist. -/
theorem nonfinite_frequency_entry_kept (frequencies magnitudes : List (JS α))
    (count i : ℕ) (m : α) (h1 : 1 ≤ i) (hm : magnitudes[i]? = some (JS.fin m)) (hmp : 0 < m)
    (hfreq : isFiniteb (frequencies.getD i JS.nan) = false)
    (hcount : (indexedMagnitudes frequencies magnitudes).length ≤ count) :
    ({ index := some i, magnitude := JS.fin m, frequency := JS.fin 0 } : DominantEntry α) ∈
      getDominantFrequencies frequencies magnitudes count := by
  have hfr : sanitizeNum (frequencies.getD i JS.nan) = JS.fin 0 := by
    rcases hval : frequencies.getD i JS.nan with _ | _ | _ | q
    · simp [sanitizeNum, isNaNb, isFiniteb]
    · simp [sanitizeNum, isNaNb, isFiniteb]
    · simp [sanitizeNum, isNaNb, isFiniteb]
    · rw [hval] at hfreq
      simp [isFiniteb] at hfreq
  have hmem : ({ index := some i, magnitude := JS.fin m, frequency := JS.fin 0 } :
      DominantEntry α) ∈ indexedMagnitudes frequencies magnitudes := by
    apply List.mem_filter.mpr
    constructor
    · apply List.mem_map.mpr
      refine ⟨(i - 1, JS.fin m), ?_, ?_⟩
      · rw [List.mk_mem_enum_iff_getElem?, List.getElem?_drop]
        have h2 : 1 + (i - 1) = i := by omega
        rw [h2]
        exact hm
      · have h3 : i - 1 + 1 = i := by omega
        simp only [h3, hfr]
        simp [sanitizeNum, isNaNb, isFiniteb]
    · simp [jsGtZero, hmp]
  unfold getDominantFrequencies
  rw [if_neg (List.ne_nil_of_mem hmem)]
  rw [List.take_of_length_le]
  · exact (sortByMagnitudeDesc_perm _).mem_iff.mpr hmem
  · rw [(sortByMagnitudeDesc_perm _).length_eq]
    exact hcount

/-- C10 (witness for the amended theorem): with frequencies [0, NaN] and
magnitudes [0, 2] the single valid entry has a NaN frequency; it is returned
with frequency 0. -/
theorem nonfinite_frequency_entry_kept_witness :
    1 ≤ 1 ∧
      ({ index := some 1, magnitude := JS.fin (2:ℚ), frequency := JS.fin 0 } :
          DominantEntry ℚ) ∈
        getDominantFrequencies ([JS.fin 0, JS.nan] : List (JS ℚ)) [JS.fin 0, JS.fin 2] 3 :=
  ⟨by decide,
    nonfinite_frequency_entry_kept ([JS.fin 0, JS.nan] : List (JS ℚ)) [JS.fin 0, JS.fin 2]
      3 1 2 (by decide) (by decide) (by decide) (by decide) (by decide)⟩

/-- C4 (counterexample): applyHannWindow on the single element list [5] does
not return the original value: the denominator N - 1 is zero, the window
factor is 0.5 * (1 - cos(0 / 0)) and the JavaScript quotient 0 / 0 is NaN, so
the output element is NaN, not 5. -/
theorem hann_window_single_nan :
    applyHannWindow Real.cos Real.pi [JS.fin (5:ℝ)] = [JS.nan] ∧
      ([JS.nan] : List (JS ℝ)) ≠ [JS.fin (5:ℝ)] := by
  constructor
  · simp [applyHannWindow, jsMul, jsSub, jsDiv, jsCos]
  · simp

/-- C4 (amended): for input length N of at least 2 the window returns a
sequence of the same length whose element i is the input element i multiplied,
in JavaScript arithmetic, by the finite factor
0.5 * (1 - cos(2 * pi * i / (N - 1))); for N = 1 the zero denominator is not
guarded: the factor is NaN (from the division 0 / 0) and the single output
element is NaN whatever the input value was. -/
theorem hann_window_formula :
    (∀ d : List (JS ℝ), 2 ≤ d.length →
      (applyHannWindow Real.cos Real.pi d).length = d.length ∧
      ∀ i, i < d.length →
        (applyHannWindow Real.cos Real.pi d).getD i JS.nan =
          jsMul (d.getD i JS.nan)
            (JS.fin (1 / 2 *
              (1 - Real.cos (2 * Real.pi * (i : ℝ) / ((d.length : ℝ) - 1)))))) ∧
    ∀ v : JS ℝ, applyHannWindow Real.cos Real.pi [v] = [JS.nan] := by
  constructor
  · intro d hd
    refine ⟨applyHannWindow_length _ _ _, ?_⟩
    intro i hi
    rw [applyHannWindow_getD _ _ _ _ hi]
    have hne : ((d.length : ℝ) - 1) ≠ 0 := by
      have h2 : (2:ℝ) ≤ (d.length : ℝ) := by exact_mod_cast hd
      intro h0
      nlinarith
    simp [jsMul, jsSub, jsCos, jsDiv, hne]
  · intro v
    cases v <;> simp [applyHannWindow, jsMul, jsSub, jsDiv, jsCos]

/-- C4 (witness for the amended theorem): a two element input keeps its
length. -/
theorem hann_window_formula_witness :
    2 ≤ ([JS.fin (1:ℝ), JS.fin 1] : List (JS ℝ)).length ∧
      (applyHannWindow Real.cos Real.pi [JS.fin (1:ℝ), JS.fin 1]).length = 2 :=
  ⟨by norm_num, (hann_window_formula.1 [JS.fin (1:ℝ), JS.fin 1] (by norm_num)).1⟩

/-- C5: a buffer with fewer than 4 samples is skipped entirely: processData
takes the early return, produces no result, and in particular estimates no
sample rate and computes no spectrum for any axis. -/
theorem insufficient_samples_skipped (cosF sqrtF : α → α) (piA : α)
    (fft : FFTArg α → Option (FFTRaw α)) (data : List (Sample α)) (h : data.length < 4) :
    processData cosF sqrtF piA fft data = none := by
  simp [processData, h]

/-- C5 (witness): a 3 sample buffer yields no result. -/
theorem insufficient_samples_skipped_witness :
    ([(⟨JS.fin 1, JS.fin 1, JS.fin 1, some (JS.fin 0)⟩ : Sample ℚ),
        ⟨JS.fin 1, JS.fin 1, JS.fin 1, some (JS.fin 100)⟩,
        ⟨JS.fin 1, JS.fin 1, JS.fin 1, some (JS.fin 200)⟩] : List (Sample ℚ)).length < 4 ∧
      processData (fun x : ℚ => x) (fun x => x) 0 (fun _ => none)
        [⟨JS.fin 1, JS.fin 1, JS.fin 1, some (JS.fin 0)⟩,
          ⟨JS.fin 1, JS.fin 1, JS.fin 1, some (JS.fin 100)⟩,
          ⟨JS.fin 1, JS.fin 1, JS.fin 1, some (JS.fin 200)⟩] = none :=
  ⟨by decide, insufficient_samples_skipped _ _ _ _ _ (by decide)⟩

/-- C7: for a nonempty input of length L, performFFT pads to
P = 2 ^ ceil(log2 L) (so P is a power of two, P is at least L, and P = L when
L is a power of two) by appending zeros after the unchanged original
elements, and hands the transform the Hann window of the padded sequence, not
of the raw one. -/
theorem pad_then_window (cosF sqrtF : α → α) (piA : α)
    (fft : FFTArg α → Option (FFTRaw α)) (timeData : List (JS α))
    (hL : 1 ≤ timeData.length) :
    (padToPow2 timeData).length = 2 ^ Nat.clog 2 timeData.length ∧
    timeData.length ≤ 2 ^ Nat.clog 2 timeData.length ∧
    (∀ k, timeData.length = 2 ^ k → 2 ^ Nat.clog 2 timeData.length = timeData.length) ∧
    (padToPow2 timeData).take timeData.length = timeData ∧
    (padToPow2 timeData).drop timeData.length =
      List.replicate (2 ^ Nat.clog 2 timeData.length - timeData.length) (JS.fin 0) ∧
    performFFT cosF sqrtF piA fft timeData =
      magnitudeStage sqrtF (fftProbe fft (applyHannWindow cosF piA (padToPow2 timeData)))
        (applyHannWindow cosF piA (padToPow2 timeData)).length timeData.length := by
  have hp := nextPow2_of_pos hL
  refine ⟨?_, ?_, ?_, padToPow2_take _, ?_, rfl⟩
  · rw [padToPow2_length, hp]
  · rw [← hp]
    exact le_nextPow2 hL
  · intro k hk
    rw [hk, Nat.clog_pow 2 k (by norm_num)]
  · rw [padToPow2_drop, hp]

/-- C7 (witness): a 3 element input is padded to 4 elements, the original
prefix unchanged. -/
theorem pad_then_window_witness :
    1 ≤ ([JS.fin (1:ℚ), JS.fin 2, JS.fin 3] : List (JS ℚ)).length ∧
      (padToPow2 [JS.fin (1:ℚ), JS.fin 2, JS.fin 3]).take 3 =
        [JS.fin (1:ℚ), JS.fin 2, JS.fin 3] :=
  ⟨by decide,
    (pad_then_window (fun x : ℚ => x) (fun x => x) 0 (fun _ => none)
      [JS.fin (1:ℚ), JS.fin 2, JS.fin 3] (by decide)).2.2.2.1⟩

theorem magnitudeOfPair_of_fin (P : ℕ) (hP : 0 < P) (re im : ℝ) :
    magnitudeOfPair Real.sqrt P (JS.fin re, JS.fin im) =
      JS.fin (Real.sqrt (re ^ 2 + im ^ 2) / (P : ℝ)) := by
  have h1 : ¬(re * re + im * im < 0) := by nlinarith [mul_self_nonneg re, mul_self_nonneg im]
  have h2 : ((P : ℝ)) ≠ 0 := by positivity
  rw [show re ^ 2 + im ^ 2 = re * re + im * im by ring]
  simp [magnitudeOfPair, jsAdd, jsMul, jsSqrt, jsDiv, h1, h2]

/-- C8: for a successful transform (the pairs format call succeeds and the
library returns one coefficient per windowed sample) over a padded sequence
of length P = nextPow2 L with L at least 2, the magnitude spectrum has
exactly P / 2 entries, entry i is the JavaScript value
sqrt(re_i * re_i + im_i * im_i) / P built from the i-th coefficient (so only
the first half of the coefficient sequence is read), and on finite
coefficients entry i equals sqrt(re_i^2 + im_i^2) / P exactly. -/
theorem magnitude_spectrum_first_half (timeData : List (JS ℝ))
    (fft : FFTArg ℝ → Option (FFTRaw ℝ)) (coeffs : List (JS ℝ × JS ℝ))
    (hL : 2 ≤ timeData.length)
    (hfft : fft (FFTArg.pairs ((applyHannWindow Real.cos Real.pi (padToPow2 timeData)).map
        (fun val => (val, JS.fin 0)))) = some (FFTRaw.pairs coeffs))
    (hlen : coeffs.length = nextPow2 timeData.length) :
    (performFFT Real.cos Real.sqrt Real.pi fft timeData).length =
        nextPow2 timeData.length / 2 ∧
      (∀ i, i < nextPow2 timeData.length / 2 →
        (performFFT Real.cos Real.sqrt Real.pi fft timeData).getD i JS.nan =
          magnitudeOfPair Real.sqrt ((applyHannWindow Real.cos Real.pi
              (padToPow2 timeData)).length) (coeffs.getD i (JS.nan, JS.nan))) ∧
      ∀ i re im, coeffs.getD i (JS.nan, JS.nan) = (JS.fin re, JS.fin im) →
        i < nextPow2 timeData.length / 2 →
        (performFFT Real.cos Real.sqrt Real.pi fft timeData).getD i JS.nan =
          JS.fin (Real.sqrt (re ^ 2 + im ^ 2) / (nextPow2 timeData.length : ℝ)) := by
  have hwin : (applyHannWindow Real.cos Real.pi (padToPow2 timeData)).length =
      nextPow2 timeData.length := by
    rw [applyHannWindow_length, padToPow2_length]
  obtain ⟨mm, hmm⟩ := nextPow2_even hL
  have hhalf : (coeffs.length + 1) / 2 = nextPow2 timeData.length / 2 := by
    rw [hlen, hmm]
    omega
  have hperf : performFFT Real.cos Real.sqrt Real.pi fft timeData =
      (List.range ((coeffs.length + 1) / 2)).map
        (fun i => magnitudeOfPair Real.sqrt
          ((applyHannWindow Real.cos Real.pi (padToPow2 timeData)).length)
          (coeffs.getD i (JS.nan, JS.nan))) := by
    show magnitudeStage Real.sqrt
        (fftProbe fft (applyHannWindow Real.cos Real.pi (padToPow2 timeData))) _ _ = _
    rw [fftProbe, hfft]
    rfl
  refine ⟨?_, ?_, ?_⟩
  · rw [hperf]
    simp [hhalf]
  · intro i hi
    rw [hperf, getD_map_range]
    omega
  · intro i re im hco hi
    rw [hperf, getD_map_range, hco, hwin, magnitudeOfPair_of_fin]
    · have h2 : 2 ≤ nextPow2 timeData.length :=
        le_trans hL (le_nextPow2 (by omega))
      omega
    · omega

/-- C8 (witness): a 2 sample input is padded to P = 2; a library returning
the coefficients (3, 4) and (1, 0) yields the single magnitude entry
sqrt(25) / 2 = 5 / 2. -/
theorem magnitude_spectrum_first_half_witness :
    2 ≤ ([JS.fin (1:ℝ), JS.fin 2] : List (JS ℝ)).length ∧
      (performFFT Real.cos Real.sqrt Real.pi
        (fun _ => some (FFTRaw.pairs [(JS.fin 3, JS.fin 4), (JS.fin 1, JS.fin 0)]))
        [JS.fin (1:ℝ), JS.fin 2]).getD 0 JS.nan =
      JS.fin (Real.sqrt ((3:ℝ) ^ 2 + 4 ^ 2) / ((nextPow2 2 : ℕ) : ℝ)) :=
  ⟨by norm_num,
    (magnitude_spectrum_first_half [JS.fin (1:ℝ), JS.fin 2]
      (fun _ => some (FFTRaw.pairs [(JS.fin 3, JS.fin 4), (JS.fin 1, JS.fin 0)]))
      [(JS.fin 3, JS.fin 4), (JS.fin 1, JS.fin 0)] (by norm_num) rfl
      (by rw [nextPow2_of_pos] <;> norm_num [Nat.clog_pow 2 1])).2.2 0 3 4 rfl
      (by rw [nextPow2_of_pos] <;> norm_num [Nat.clog_pow 2 1])⟩

unseal Nat.clog Rat.add Rat.sub Rat.mul Rat.inv in
/-- C1 (counterexample): a 4 sample recording over 2 seconds has effective
rate R = 2 and padded length P = 4, and a library returning 4 unit
coefficients gives a magnitude spectrum of length M = P / 2 = 2.  The
frequency axis produced is [0, 1/2]: entry 1 is 1 * R / (M * 2) = 1 * R / P
= 1/2, whereas the claimed formula 1 * R / (P * 2) gives 1/4. -/
theorem frequency_bins_counterexample :
    processData (fun x : ℚ => x) (fun x => x) 0
        (fun _ => some (FFTRaw.pairs (List.replicate 4 (JS.fin 1, JS.fin 0))))
        [⟨JS.fin 1, JS.fin 1, JS.fin 1, some (JS.fin 0)⟩,
          ⟨JS.fin 1, JS.fin 1, JS.fin 1, some (JS.fin 500)⟩,
          ⟨JS.fin 1, JS.fin 1, JS.fin 1, some (JS.fin 1000)⟩,
          ⟨JS.fin 1, JS.fin 1, JS.fin 1, some (JS.fin 2000)⟩] =
      some ⟨⟨[JS.fin 0, JS.fin (1/2)], [JS.fin (1/4), JS.fin (1/4)]⟩,
            ⟨[JS.fin 0, JS.fin (1/2)], [JS.fin (1/4), JS.fin (1/4)]⟩,
            ⟨[JS.fin 0, JS.fin (1/2)], [JS.fin (1/4), JS.fin (1/4)]⟩⟩ ∧
    JS.fin ((1:ℚ)/2) ≠ JS.fin ((1 * 2 / (4 * 2) : ℚ)) := by
  constructor
  · decide
  · decide

/-- C1 (amended): the frequency axis built for a magnitude spectrum of length
M and a finite sample rate r satisfies freq[i] = i * r / (M * 2); as the code
computes M = P / 2 from the transform output, the denominator M * 2 is the
padded length P itself, i.e. the mapping is the conventional i * R / P and
not i * R / (P * 2). -/
theorem frequency_bins_formula (M : ℕ) (r : α) (i : ℕ) (hM : 1 ≤ M) (hi : i < M) :
    (frequencyBins M (JS.fin r)).getD i JS.nan = JS.fin ((i : α) * r / ((M : α) * 2)) := by
  rw [frequencyBins, getD_map_range _ _ _ _ hi]
  have hpos : (0:α) < (M:α) := by exact_mod_cast hM
  have hne : ((M : α) * 2) ≠ 0 := by positivity
  simp [jsMul, jsDiv, hne]

unseal Rat.mul Rat.inv in
/-- C1 (witness for the amended theorem): with M = 2 and r = 3 the entry at
index 1 is 3 / 4. -/
theorem frequency_bins_formula_witness :
    1 ≤ 2 ∧ 1 < 2 ∧
      (frequencyBins 2 (JS.fin (3:ℚ))).getD 1 JS.nan =
        JS.fin (((1:ℕ) : ℚ) * 3 / (((2:ℕ) : ℚ) * 2)) :=
  ⟨by norm_num, by norm_num, frequency_bins_formula 2 3 1 (by norm_num) (by norm_num)⟩

unseal Nat.clog Rat.add Rat.sub Rat.mul Rat.inv in
/-- C2 (counterexample): on a 4 sample buffer whose timestamps are all 1000,
the duration is 0, yet no error is signalled: the effective sample rate is
computed as 4 / 0 = positive infinity and the rest of the pipeline still runs
(processData produces a result), refuting the claim that a DegenerateRecording
error is raised and that no Infinity rate is ever produced. -/
theorem degenerate_recording_not_guarded :
    samplingRateOf
        [(⟨JS.fin 1, JS.fin 1, JS.fin 1, some (JS.fin 1000)⟩ : Sample ℚ),
          ⟨JS.fin 1, JS.fin 1, JS.fin 1, some (JS.fin 1000)⟩,
          ⟨JS.fin 1, JS.fin 1, JS.fin 1, some (JS.fin 1000)⟩,
          ⟨JS.fin 1, JS.fin 1, JS.fin 1, some (JS.fin 1000)⟩] = JS.posInf ∧
      processData (fun x : ℚ => x) (fun x => x) 0 (fun _ => none)
        [⟨JS.fin 1, JS.fin 1, JS.fin 1, some (JS.fin 1000)⟩,
          ⟨JS.fin 1, JS.fin 1, JS.fin 1, some (JS.fin 1000)⟩,
          ⟨JS.fin 1, JS.fin 1, JS.fin 1, some (JS.fin 1000)⟩,
          ⟨JS.fin 1, JS.fin 1, JS.fin 1, some (JS.fin 1000)⟩] ≠ none := by
  constructor
  · decide
  · decide

/-- C2 (amended): the code has no degenerate duration guard.  For every
buffer of at least 4 samples whose computed duration d is at most 0, no error
value exists and processData still runs the rest of the pipeline and produces
a result; the effective sample rate is the positive infinity produced by the
JavaScript division count / 0 when d = 0, and the negative finite value
count / d when d < 0 - never a DegenerateRecording error. -/
theorem degenerate_duration_no_guard (cosF sqrtF : α → α) (piA : α)
    (fft : FFTArg α → Option (FFTRaw α)) (data : List (Sample α)) (d : α)
    (h4 : 4 ≤ data.length) (hdur : durationSecondsOf data = JS.fin d) (_hd : d ≤ 0) :
    processData cosF sqrtF piA fft data ≠ none ∧
      (d = 0 → samplingRateOf data = JS.posInf) ∧
      (d < 0 → samplingRateOf data = JS.fin ((data.length : α) / d) ∧
        (data.length : α) / d < 0) := by
  have hpos : (0:α) < (data.length : α) := by
    have h0 : (0:ℕ) < data.length := by omega
    exact_mod_cast h0
  refine ⟨?_, ?_, ?_⟩
  · have hnot : ¬ data.length < 4 := by omega
    simp [processData, hnot]
  · intro h0
    rw [samplingRateOf, hdur, h0]
    have hne : ((data.length : α)) ≠ 0 := ne_of_gt hpos
    simp [jsDiv, hne, hpos]
  · intro hneg
    have hne : d ≠ 0 := ne_of_lt hneg
    constructor
    · rw [samplingRateOf, hdur]
      simp [jsDiv, hne]
    · exact div_neg_of_pos_of_neg hpos hneg

unseal Rat.add Rat.sub Rat.mul Rat.inv in
/-- C2 (witness for the amended theorem): a buffer whose last sample carries
no timestamp (so last.timestamp || 0 coerces to 0) has duration
(0 - 1000) / 1000 = -1; the pipeline still runs and the rate is the negative
finite value 4 / -1 = -4. -/
theorem degenerate_duration_no_guard_witness :
    4 ≤ ([(⟨JS.fin 1, JS.fin 1, JS.fin 1, some (JS.fin 1000)⟩ : Sample ℚ),
          ⟨JS.fin 1, JS.fin 1, JS.fin 1, some (JS.fin 1100)⟩,
          ⟨JS.fin 1, JS.fin 1, JS.fin 1, some (JS.fin 1200)⟩,
          ⟨JS.fin 1, JS.fin 1, JS.fin 1, none⟩] : List (Sample ℚ)).length ∧
      durationSecondsOf
        [(⟨JS.fin 1, JS.fin 1, JS.fin 1, some (JS.fin 1000)⟩ : Sample ℚ),
          ⟨JS.fin 1, JS.fin 1, JS.fin 1, some (JS.fin 1100)⟩,
          ⟨JS.fin 1, JS.fin 1, JS.fin 1, some (JS.fin 1200)⟩,
          ⟨JS.fin 1, JS.fin 1, JS.fin 1, none⟩] = JS.fin (-1 : ℚ) ∧
      (-1 : ℚ) ≤ 0 ∧
      processData (fun x : ℚ => x) (fun x => x) 0 (fun _ => none)
        [⟨JS.fin 1, JS.fin 1, JS.fin 1, some (JS.fin 1000)⟩,
          ⟨JS.fin 1, JS.fin 1, JS.fin 1, some (JS.fin 1100)⟩,
          ⟨JS.fin 1, JS.fin 1, JS.fin 1, some (JS.fin 1200)⟩,
          ⟨JS.fin 1, JS.fin 1, JS.fin 1, none⟩] ≠ none ∧
      samplingRateOf
        [(⟨JS.fin 1, JS.fin 1, JS.fin 1, some (JS.fin 1000)⟩ : Sample ℚ),
          ⟨JS.fin 1, JS.fin 1, JS.fin 1, some (JS.fin 1100)⟩,
          ⟨JS.fin 1, JS.fin 1, JS.fin 1, some (JS.fin 1200)⟩,
          ⟨JS.fin 1, JS.fin 1, JS.fin 1, none⟩] = JS.fin (-4 : ℚ) := by
  refine ⟨by decide, by decide, by norm_num, ?_, ?_⟩
  · exact (degenerate_duration_no_guard (fun x : ℚ => x) (fun x => x) 0 (fun _ => none)
      [⟨JS.fin 1, JS.fin 1, JS.fin 1, some (JS.fin 1000)⟩,
        ⟨JS.fin 1, JS.fin 1, JS.fin 1, some (JS.fin 1100)⟩,
        ⟨JS.fin 1, JS.fin 1, JS.fin 1, some (JS.fin 1200)⟩,
        ⟨JS.fin 1, JS.fin 1, JS.fin 1, none⟩] (-1) (by decide) (by decide)
      (by norm_num)).1
  · have h := ((degenerate_duration_no_guard (fun x : ℚ => x) (fun x => x) 0 (fun _ => none)
      [⟨JS.fin 1, JS.fin 1, JS.fin 1, some (JS.fin 1000)⟩,
        ⟨JS.fin 1, JS.fin 1, JS.fin 1, some (JS.fin 1100)⟩,
        ⟨JS.fin 1, JS.fin 1, JS.fin 1, some (JS.fin 1200)⟩,
        ⟨JS.fin 1, JS.fin 1, JS.fin 1, none⟩] (-1) (by decide) (by decide)
      (by norm_num)).2.2 (by norm_num)).1
    rw [h]
    norm_num

unseal Nat.clog Rat.add Rat.sub Rat.mul Rat.inv in
/-- C9 (counterexample): on a 6 sample recording whose transform fails, the X
axis degrades to an all zero spectrum of length ceil(6 / 2) = 3, while a
successful spectrum would have P / 2 = nextPow2 6 / 2 = 4 entries: the
fallback length is not the claimed P / 2. -/
theorem transform_failure_wrong_length :
    (processData (fun x : ℚ => x) (fun x => x) 0 (fun _ => none)
        [⟨JS.fin 1, JS.fin 1, JS.fin 1, some (JS.fin 0)⟩,
          ⟨JS.fin 1, JS.fin 1, JS.fin 1, some (JS.fin 100)⟩,
          ⟨JS.fin 1, JS.fin 1, JS.fin 1, some (JS.fin 200)⟩,
          ⟨JS.fin 1, JS.fin 1, JS.fin 1, some (JS.fin 300)⟩,
          ⟨JS.fin 1, JS.fin 1, JS.fin 1, some (JS.fin 400)⟩,
          ⟨JS.fin 1, JS.fin 1, JS.fin 1, some (JS.fin 500)⟩]).map
        (fun r => r.x.magnitudes) = some (List.replicate 3 (JS.fin 0)) ∧
      nextPow2 6 = 8 ∧ (3:ℕ) ≠ 8 / 2 := by
  refine ⟨by decide, by decide, by decide⟩

/-- C9 (amended): when the transform fails for the X axis (both library call
formats fail), nothing crashes: processData still produces a result, the X
axis degrades to an all zero spectrum whose length is ceil(L / 2) for the raw
sample count L (not P / 2 in general), and the Y and Z axes are still
computed by their own independent transform invocations, unaffected by the X
axis failure. -/
theorem transform_failure_fallback (cosF sqrtF : α → α) (piA : α)
    (fft : FFTArg α → Option (FFTRaw α)) (data : List (Sample α))
    (h4 : 4 ≤ data.length)
    (hx1 : fft (FFTArg.pairs ((applyHannWindow cosF piA (padToPow2 (data.map Sample.x))).map
        (fun val => (val, JS.fin 0)))) = none)
    (hx2 : fft (FFTArg.alternating
        ((applyHannWindow cosF piA (padToPow2 (data.map Sample.x))).flatMap
          (fun val => [val, JS.fin 0]))) = none) :
    (processData cosF sqrtF piA fft data).map (fun r => r.x.magnitudes) =
        some (List.replicate ((data.length + 1) / 2) (JS.fin 0)) ∧
      (processData cosF sqrtF piA fft data).map (fun r => r.y.magnitudes) =
        some (performFFT cosF sqrtF piA fft (data.map Sample.y)) ∧
      (processData cosF sqrtF piA fft data).map (fun r => r.z.magnitudes) =
        some (performFFT cosF sqrtF piA fft (data.map Sample.z)) := by
  have hnot : ¬ data.length < 4 := by omega
  have hx : performFFT cosF sqrtF piA fft (data.map Sample.x) =
      List.replicate ((data.length + 1) / 2) (JS.fin 0) := by
    show magnitudeStage sqrtF
        (fftProbe fft (applyHannWindow cosF piA (padToPow2 (data.map Sample.x)))) _ _ = _
    rw [fftProbe, hx1, hx2]
    show List.replicate (((data.map Sample.x).length + 1) / 2) (JS.fin 0) = _
    rw [List.length_map]
  refine ⟨?_, ?_, ?_⟩
  · simp [processData, hnot, hx]
  · simp [processData, hnot]
  · simp [processData, hnot]

/-- C9 (witness for the amended theorem): a 4 sample buffer with a failing
library produces the 2 zero fallback for the X axis. -/
theorem transform_failure_fallback_witness :
    4 ≤ ([(⟨JS.fin 1, JS.fin 1, JS.fin 1, some (JS.fin 0)⟩ : Sample ℚ),
          ⟨JS.fin 1, JS.fin 1, JS.fin 1, some (JS.fin 100)⟩,
          ⟨JS.fin 1, JS.fin 1, JS.fin 1, some (JS.fin 200)⟩,
          ⟨JS.fin 1, JS.fin 1, JS.fin 1, some (JS.fin 300)⟩] : List (Sample ℚ)).length ∧
      (processData (fun x : ℚ => x) (fun x => x) 0 (fun _ => none)
          [⟨JS.fin 1, JS.fin 1, JS.fin 1, some (JS.fin 0)⟩,
            ⟨JS.fin 1, JS.fin 1, JS.fin 1, some (JS.fin 100)⟩,
            ⟨JS.fin 1, JS.fin 1, JS.fin 1, some (JS.fin 200)⟩,
            ⟨JS.fin 1, JS.fin 1, JS.fin 1, some (JS.fin 300)⟩]).map
        (fun r => r.x.magnitudes) = some (List.replicate 2 (JS.fin 0)) :=
  ⟨by decide,
    (transform_failure_fallback (fun x : ℚ => x) (fun x => x) 0 (fun _ => none)
      [⟨JS.fin 1, JS.fin 1, JS.fin 1, some (JS.fin 0)⟩,
        ⟨JS.fin 1, JS.fin 1, JS.fin 1, some (JS.fin 100)⟩,
        ⟨JS.fin 1, JS.fin 1, JS.fin 1, some (JS.fin 200)⟩,
        ⟨JS.fin 1, JS.fin 1, JS.fin 1, some (JS.fin 300)⟩] (by decide) rfl rfl).1⟩
